import Mathlib

/-!
Shallow embedding of the `weekly` repository scanner
(`weekly/weekly/git_scanner.py`): the `GitRepo` metadata extraction, the
discovery filter, per-repository scanning with independent checks, and the
per-repository / summary report aggregation.  External effects (the `git`
CLI, checker plugins, report rendering) are modelled as explicit
environment parameters; machine behaviour such as Python exceptions is
modelled with `Except` and explicit control flow mirroring the source's
`try`/`except` blocks.
-/

namespace Weekly

/-- Python `datetime` values are totally ordered by calendar instant.  We
represent one by its proleptic-Gregorian day number together with the time
of day in seconds; comparison is lexicographic, matching `datetime`
comparison. -/
structure PyDateTime where
  day : Int
  tod : Nat
deriving DecidableEq, Repr

/-- Comparison of Python datetimes: lexicographic on (calendar day, time of
day). -/
def PyDateTime.le (a b : PyDateTime) : Bool :=
  if a.day < b.day then true
  else if a.day = b.day then decide (a.tod ≤ b.tod)
  else false

/-- Gregorian leap-year test, as used by `datetime`. -/
def isLeap (y : Int) : Bool :=
  (y % 4 = 0 && y % 100 ≠ 0) || y % 400 = 0

/-- Number of days in a Gregorian month; `strptime` rejects a day of month
beyond this bound. -/
def daysInMonth (y m : Int) : Int :=
  if m = 2 then (if isLeap y then 29 else 28)
  else if m = 4 ∨ m = 6 ∨ m = 9 ∨ m = 11 then 30
  else 31

/-- Day number of a Gregorian calendar date (days since 1970-01-01, the
standard civil-from-days correspondence).  This linearisation is
order-isomorphic to `datetime`'s componentwise date comparison. -/
def daysFromCivil (y m d : Int) : Int :=
  let y' := if m ≤ 2 then y - 1 else y
  let era := Int.fdiv y' 400
  let yoe := y' - era * 400
  let mp := (m + 9) % 12
  let doy := Int.fdiv (153 * mp + 2) 5 + d - 1
  let doe := yoe * 365 + Int.fdiv yoe 4 - Int.fdiv yoe 100 + doy
  era * 146097 + doe - 719468

/-- Strip leading whitespace from a character list. -/
def dropWS (l : List Char) : List Char :=
  l.dropWhile Char.isWhitespace

/-- Python `str.strip()`: remove whitespace from both ends.  Implemented
over the string's character list so that it evaluates by kernel
reduction. -/
def pyStrip (s : String) : String :=
  ⟨(dropWS ((dropWS s.data).reverse)).reverse⟩

/-- Whitespace-run tokenizer: accumulates the current (reversed) token and
emits it at each whitespace boundary. -/
def tokensAux : List Char → List Char → List (List Char)
  | [], acc => if acc.isEmpty then [] else [acc.reverse]
  | c :: cs, acc =>
    if c.isWhitespace then
      if acc.isEmpty then tokensAux cs [] else acc.reverse :: tokensAux cs []
    else tokensAux cs (c :: acc)

/-- Python `str.split()` with no separator: split on whitespace runs,
dropping empty pieces. -/
def pySplitWS (s : String) : List String :=
  (tokensAux s.data []).map String.mk

/-- Python `str.split(sep)` for a one-character separator. -/
def splitOnChar (sep : Char) : List Char → List (List Char)
  | [] => [[]]
  | c :: cs =>
    let r := splitOnChar sep cs
    if c = sep then [] :: r
    else
      match r with
      | [] => [[c]]
      | t :: ts => (c :: t) :: ts

/-- Parse a nonempty all-digit character list as a decimal number (the
shape `strptime` accepts for a numeric field). -/
def decDigits? (l : List Char) : Option Nat :=
  if l.isEmpty then none
  else
    l.foldl
      (fun acc c =>
        match acc with
        | none => none
        | some n => if c.isDigit then some (n * 10 + (c.toNat - 48)) else none)
      (some 0)

/-- Parse one token with `datetime.strptime(token, "%Y-%m-%d")`: three
dash-separated decimal fields forming a valid calendar date.  Returns the
day number of the parsed date; `none` models the `ValueError` raised by
`strptime` on a malformed token. -/
def parseYMD (s : String) : Option Int :=
  match splitOnChar '-' s.data with
  | [ys, ms, ds] =>
    match decDigits? ys, decDigits? ms, decDigits? ds with
    | some y, some m, some d =>
      if 1 ≤ m ∧ m ≤ 12 ∧ 1 ≤ d ∧ (d : Int) ≤ daysInMonth y m then
        some (daysFromCivil y m d)
      else none
    | _, _, _ => none
  | _ => none

/-- Source line 52-57: the last-commit date is
`datetime.strptime(stdout.strip().split()[0], "%Y-%m-%d")` — the first
whitespace-separated token of the (stripped) log output, parsed as a bare
calendar date, so the resulting datetime is at midnight.  `none` models the
`IndexError`/`ValueError` such a parse can raise. -/
def parseLogDate (s : String) : Option PyDateTime :=
  match (pySplitWS s).head? with
  | none => none
  | some tok => (parseYMD tok).map fun d => { day := d, tod := 0 }

/-- Outcome of one invocation of the external `git` CLI: `subprocess.run`
either raises or completes with an exit code and captured stdout. -/
inductive GitOutcome where
  | raises
  | completes (returncode : Int) (stdout : String)
deriving DecidableEq, Repr

/-- Result object of `GitRepo._run_git` (source lines 72-83): on an
exception from `subprocess.run` it returns
`CompletedProcess(args=command, returncode=1)`, whose `stdout` is `None`;
otherwise it forwards the completed process. -/
structure CompletedProcess where
  returncode : Int
  stdout : Option String
deriving DecidableEq, Repr

/-- Embedding of `GitRepo._run_git`. -/
def runGit : GitOutcome → CompletedProcess
  | .raises => { returncode := 1, stdout := none }
  | .completes rc out => { returncode := rc, stdout := some out }

/-- Stripped stdout of a completed process.  In the source `stdout` is only
dereferenced under `returncode == 0`, which `_run_git` guarantees implies
`stdout` is a string, so the `getD` default is never reached. -/
def stdoutStripped (p : CompletedProcess) : String :=
  pyStrip (p.stdout.getD "")

/-- Guard `result.returncode == 0 and result.stdout.strip()` used before
each metadata assignment (source lines 48, 53, 61). -/
def succOut (p : CompletedProcess) : Bool :=
  p.returncode = 0 && stdoutStripped p ≠ ""

/-- Behaviour of the three `git` queries `_extract_metadata` makes for one
repository: current branch, last commit date, remote URL. -/
structure GitQueries where
  branchQ : GitOutcome
  logQ : GitOutcome
  remoteQ : GitOutcome
deriving DecidableEq, Repr

/-- Metadata fields of `GitRepo` populated by `_extract_metadata`, with the
dataclass defaults `branch="main"`, `last_commit_date=None`,
`remote_url=""` (source lines 33-36). -/
structure RepoMeta where
  branch : String := "main"
  last_commit_date : Option PyDateTime := none
  remote_url : String := ""
deriving DecidableEq, Repr

/-- Embedding of `GitRepo._extract_metadata` (source lines 43-64).  The
three queries run in order inside one `try`; a failed guard leaves the
field at its default and moves on, while an exception raised by `strptime`
on a malformed date token is swallowed by the enclosing
`except Exception: pass`, which also skips the remaining remote-URL
query. -/
def extractMetadata (q : GitQueries) : RepoMeta :=
  let r1 := runGit q.branchQ
  let branch := if succOut r1 then stdoutStripped r1 else "main"
  let r2 := runGit q.logQ
  if succOut r2 then
    match parseLogDate (stdoutStripped r2) with
    | some dt =>
      let r3 := runGit q.remoteQ
      { branch := branch, last_commit_date := some dt,
        remote_url := if succOut r3 then stdoutStripped r3 else "" }
    | none =>
      { branch := branch, last_commit_date := none, remote_url := "" }
  else
    let r3 := runGit q.remoteQ
    { branch := branch, last_commit_date := none,
      remote_url := if succOut r3 then stdoutStripped r3 else "" }

/-- Embedding of the `GitRepo` dataclass after `__post_init__` has run. -/
structure GitRepo where
  path : String
  name : String
  org : String
  branch : String
  last_commit_date : Option PyDateTime
  remote_url : String
deriving DecidableEq, Repr

/-- One `.git` directory found by the `os.walk` pass of `find_git_repos`,
together with the behaviour of the `git` CLI at that path.  The path walk
and the org/name derivation from path segments are part of the filesystem
environment. -/
structure RepoCand where
  path : String
  org : String
  name : String
  queries : GitQueries
deriving DecidableEq, Repr

/-- Construction `GitRepo(path=git_dir, name=repo_name, org=org)` (source
line 166), whose `__post_init__` runs `_extract_metadata`. -/
def GitRepo.ofCandidate (c : RepoCand) : GitRepo :=
  let m := extractMetadata c.queries
  { path := c.path, name := c.name, org := c.org,
    branch := m.branch, last_commit_date := m.last_commit_date,
    remote_url := m.remote_url }

/-- Embedding of `GitRepo.has_recent_changes` (source lines 66-70):
`False` when there is no last-commit date, else `last_commit_date >= since`. -/
def GitRepo.has_recent_changes (r : GitRepo) (since : PyDateTime) : Bool :=
  match r.last_commit_date with
  | none => false
  | some d => PyDateTime.le since d

/-- Modelled from the spec: `weekly/checkers/base.py` is not among the
sources.  The spec describes `CheckResult` as the outcome of one named
check — `name`, `isOk` (boolean), `description`, free-form `details`
(key-value), `nextSteps` (ordered remediation strings) — and the scanner
additionally reads a `message` field. -/
structure CheckResult where
  name : String := ""
  is_ok : Bool := true
  description : String := ""
  message : String := ""
  details : List (String × String) := []
  next_steps : List String := []
deriving DecidableEq, Repr

/-- One checker plugin as the scanner sees it (source lines 193-208): a
`name` attribute and a `check(path)` capability that either returns a
`CheckResult` or raises. -/
structure Checker where
  name : String
  run : String → Except String CheckResult

/-- Behaviour of `GitReportGenerator.generate_html_report` and the
surrounding file writes in `_generate_repo_report`: rendering either
succeeds or raises.  The renderer is a black-box collaborator. -/
def ReportGen := GitRepo → List (String × CheckResult) → Except String Unit

/-- Embedding of the `ScanResult` dataclass (source lines 86-92).  The
result map is a Python `dict` keyed by checker name; the fixed checker
list has pairwise-distinct names, so the insertion-ordered association
list is a faithful model. -/
structure ScanResult where
  repo : GitRepo
  results : List (String × CheckResult) := []
  error : Option String := none
deriving DecidableEq, Repr

/-- Embedding of the checker loop of `scan_repo` (source lines 203-208):
run every checker in order; a checker that returns stores its result under
its name, a checker that raises is skipped (its exception is caught and
only a warning is printed). -/
def runCheckers (checkers : List Checker) (path : String) :
    List (String × CheckResult) :=
  match checkers with
  | [] => []
  | c :: cs =>
    match c.run path with
    | .ok r => (c.name, r) :: runCheckers cs path
    | .error _ => runCheckers cs path

/-- Embedding of `GitScanner.scan_repo` (source lines 178-217): build a
`ScanResult`, run all checkers (individual checker exceptions are caught
by the inner `try`), then generate the per-repo report; an exception from
report generation is caught by the outer `try` and recorded as the
result's `error`.  The function itself never raises. -/
def scanRepo (checkers : List Checker) (reportGen : ReportGen)
    (repo : GitRepo) : ScanResult :=
  let results := runCheckers checkers repo.path
  match reportGen repo results with
  | .ok _ => { repo := repo, results := results, error := none }
  | .error e => { repo := repo, results := results, error := some e }

/-- Filesystem environment of `find_git_repos`: whether the root directory
exists, and the `.git` directories the `os.walk` pass yields (with the
`git` CLI behaviour at each). -/
structure DiscoveryEnv where
  rootExists : Bool
  candidates : List RepoCand

/-- Embedding of `GitScanner.__init__`'s cutoff handling (source line
132): `self.since = since or (datetime.now() - timedelta(days=7))`.
Python `datetime` objects are always truthy, so a supplied cutoff is kept
and a missing one is replaced by seven days before the current time. -/
def initSince (since : Option PyDateTime) (now : PyDateTime) : PyDateTime :=
  match since with
  | some s => s
  | none => { day := now.day - 7, tod := now.tod }

/-- Embedding of `GitScanner.find_git_repos` (source lines 138-176): a
missing root yields no repositories; otherwise each found `.git` directory
becomes a `GitRepo` (running metadata extraction) and is kept only when
`self.since and not repo.has_recent_changes(self.since)` does not skip it
— `self.since` is always a truthy datetime, so the filter always
applies. -/
def findGitRepos (env : DiscoveryEnv) (since : PyDateTime) : List GitRepo :=
  if env.rootExists = false then []
  else
    (env.candidates.map GitRepo.ofCandidate).filter
      (fun r => r.has_recent_changes since)

/-- Completion-order scan loop of `scan_all` (source lines 235-255): each
discovered repository is submitted once to the pool, `as_completed` yields
the finished futures in an arbitrary order, and each `future.result()` is
appended to the shared result list.  The nondeterminism of the pool (for
any worker count) is exactly the choice of a completion order, i.e. a
permutation of the submitted repositories. -/
def scanAllFromOrder (checkers : List Checker) (reportGen : ReportGen)
    (order : List GitRepo) : List ScanResult :=
  order.map (scanRepo checkers reportGen)

/-- Embedding of `GitScanner.scan_all` (source lines 219-260): discover
repositories, return an empty list immediately when none were found, and
otherwise scan all of them, collecting results in completion order.  The
worker count `jobs` influences only scheduling, never which results are
produced. -/
def scanAll (jobs : Nat) (checkers : List Checker) (reportGen : ReportGen)
    (env : DiscoveryEnv) (since : PyDateTime) (order : List GitRepo) :
    List ScanResult :=
  let _ := jobs
  let repos := findGitRepos env since
  if repos.isEmpty then [] else scanAllFromOrder checkers reportGen order

/-- Modelled from the spec: `weekly/git_report.py` is not among the
sources.  `RepoInfo` is the plain data carrier handed to the per-repo
report renderer (constructed at source lines 281-289); it stores the
fields it is given, including the computed `has_errors` flag. -/
structure RepoInfo where
  name : String
  org : String
  path : String
  branch : String
  remote_url : String
  last_commit_date : Option PyDateTime
  has_errors : Bool
deriving DecidableEq, Repr

/-- Modelled from the spec: `weekly/git_report.py` is not among the
sources.  The renderer-side check-result carrier built at source lines
292-302, including the derived `severity` field. -/
structure GitCheckResult where
  name : String
  description : String
  is_ok : Bool
  message : String
  details : List (String × String)
  next_steps : List String
  severity : String
deriving DecidableEq, Repr

/-- Line 288 of the source, the per-repo report's overall status:
`has_errors=result.error is not None or any(not r.is_ok for r in
result.results.values())`. -/
def repoReportHasErrors (result : ScanResult) : Bool :=
  result.error.isSome || result.results.any (fun r => !r.2.is_ok)

/-- Embedding of the `RepoInfo` construction in `_generate_repo_report`
(source lines 281-289). -/
def mkRepoInfo (repo : GitRepo) (result : ScanResult) : RepoInfo :=
  { name := repo.name, org := repo.org, path := repo.path,
    branch := repo.branch, remote_url := repo.remote_url,
    last_commit_date := repo.last_commit_date,
    has_errors := repoReportHasErrors result }

/-- Embedding of the per-check conversion in `_generate_repo_report`
(source lines 294-302): each stored `CheckResult` becomes a
`GitCheckResult` with `severity="high" if not check_result.is_ok else
"low"`. -/
def toGitCheckResult (name : String) (c : CheckResult) : GitCheckResult :=
  { name := name, description := c.description, is_ok := c.is_ok,
    message := c.message, details := c.details,
    next_steps := c.next_steps,
    severity := if !c.is_ok then "high" else "low" }

/-- Line 341 of the source, the summary's per-repository status:
`has_errors = result.error is not None or any(not check.is_ok for check in
result.results.values())`. -/
def summaryHasErrors (result : ScanResult) : Bool :=
  result.error.isSome || result.results.any (fun check => !check.2.is_ok)

/-- ASCII lowercase of one character, the fragment of `str.lower` the
repository's organization/name strings exercise. -/
def pyCharLower (c : Char) : Char :=
  if 'A' ≤ c ∧ c ≤ 'Z' then Char.ofNat (c.toNat + 32) else c

/-- Python `str.lower()` (restricted to its ASCII action). -/
def pyLower (s : String) : String :=
  ⟨s.data.map pyCharLower⟩

/-- Strict lexicographic comparison of character lists by code point:
Python string `<`. -/
def lexLt : List Char → List Char → Bool
  | _, [] => false
  | [], _ :: _ => true
  | a :: as, b :: bs =>
    if a < b then true else if a = b then lexLt as bs else false

/-- Python tuple comparison `(a1, a2) < (b1, b2)` on string pairs, as the
sort of line 358 uses on its keys. -/
def strPairLt (a b : String × String) : Bool :=
  lexLt a.1.data b.1.data || (a.1 == b.1 && lexLt a.2.data b.2.data)

/-- One row of the `repos_data` list built by `_generate_summary_report`
(source lines 346-355).  `last_commit` is stored as the raw datetime; the
source formats it (or the placeholder string) only for display. -/
structure SummaryEntry where
  name : String
  org : String
  path : String
  branch : String
  has_errors : Bool
  last_commit : Option PyDateTime
  report_path : String
  remote_url : String
deriving DecidableEq, Repr

/-- Row construction in the summary loop (source lines 340-355). -/
def mkSummaryEntry (result : ScanResult) : SummaryEntry :=
  { name := result.repo.name, org := result.repo.org,
    path := result.repo.path, branch := result.repo.branch,
    has_errors := summaryHasErrors result,
    last_commit := result.repo.last_commit_date,
    report_path := result.repo.org ++ "/" ++ result.repo.name ++ "/latest.html",
    remote_url := result.repo.remote_url }

/-- Sort key of line 358: `(x["org"].lower(), x["name"].lower())`. -/
def entryKey (e : SummaryEntry) : String × String :=
  (pyLower e.org, pyLower e.name)

/-- When a stable sort may leave `a` before `b`: Python's `list.sort`
(Timsort, documented stable) moves `b` before `a` exactly when
`key(b) < key(a)`. -/
def entryLE (a b : SummaryEntry) : Prop :=
  strPairLt (entryKey b) (entryKey a) = false

instance : DecidableRel entryLE := fun a b => by
  unfold entryLE; infer_instance

/-- Embedding of `repos_data.sort(key=lambda x: (x["org"].lower(),
x["name"].lower()))` at source line 358 followed by rendering: Python's
`list.sort` is a stable sort by the key, and any stable insertion sort by
the same total preorder produces the identical list. -/
def generateSummaryOrder (results : List ScanResult) : List SummaryEntry :=
  List.insertionSort entryLE (results.map mkSummaryEntry)

/-- Strict comparison on entries: the key of the first is lexicographically
smaller.  Together with key-distinctness this characterises a sorted
summary uniquely. -/
def entryLT (a b : SummaryEntry) : Prop :=
  entryLE a b ∧ entryKey a ≠ entryKey b

/-- Report generator that always succeeds, used as a concrete environment
in several witnesses. -/
def okReport : ReportGen := fun _ _ => .ok ()

/-- Checker that completes successfully with a passing result. -/
def okCheck (nm : String) : Checker :=
  { name := nm, run := fun _ => .ok { name := nm, is_ok := true } }

/-- Checker that raises. -/
def failCheck (nm : String) : Checker :=
  { name := nm, run := fun _ => .error "boom" }

/-- A metadata query that failed in the sense of the error taxonomy: the
CLI invocation raised, or it completed with a non-zero exit code. -/
def failsQ (o : GitOutcome) : Prop :=
  o = .raises ∨ ∃ rc out, o = .completes rc out ∧ rc ≠ 0

/-- Git behaviour of a healthy repository last touched on 2025-06-08. -/
def healthyQueries : GitQueries :=
  { branchQ := .completes 0 "main\n",
    logQ := .completes 0 "2025-06-08 12:00:00 +0000\n",
    remoteQ := .completes 0 "git@example.com:acme/a.git" }

/-- Fixture: repository scanned by the concurrency witnesses. -/
def w2cand : RepoCand :=
  { path := "/work/a", org := "acme", name := "a", queries := healthyQueries }

/-- Fixture: a one-repository filesystem. -/
def w2env : DiscoveryEnv := { rootExists := true, candidates := [w2cand] }

/-- Fixture cutoff of 2025-06-01, midnight. -/
def w2since : PyDateTime := { day := daysFromCivil 2025 6 1, tod := 0 }

/-- Fixture checker list for the check-failure claims: `style` raises,
the other checks succeed. -/
def c3checkers : List Checker :=
  [failCheck "style", okCheck "tests", okCheck "docs"]

/-- Fixture repository for the check-failure witness. -/
def c3repo : GitRepo :=
  { path := "/work/R", name := "R", org := "acme", branch := "main",
    last_commit_date := none, remote_url := "" }

/-- Fixture scan results whose summary keys collide: organizations match
and the names `A` and `a` agree after lowercasing. -/
def c4rA : ScanResult :=
  { repo := { path := "/work/A", name := "A", org := "", branch := "main",
              last_commit_date := none, remote_url := "" } }

/-- Fixture scan result with name `a`, same key as `c4rA`. -/
def c4ra : ScanResult :=
  { repo := { path := "/work/a", name := "a", org := "", branch := "main",
              last_commit_date := none, remote_url := "" } }

/-- Fixture scan results with distinct keys for the determinism witness. -/
def c4rb : ScanResult :=
  { repo := { path := "/work/b", name := "b", org := "", branch := "main",
              last_commit_date := none, remote_url := "" } }

/-- Fixture: repository last touched in January 2020, long before any
2025 cutoff. -/
def c5cand : RepoCand :=
  { path := "/work/old", org := "", name := "old",
    queries := { branchQ := .completes 0 "main",
                 logQ := .completes 0 "2020-01-15 12:00:00 +0000",
                 remoteQ := .completes 0 "" } }

/-- Fixture filesystem containing only the old repository. -/
def c5env : DiscoveryEnv := { rootExists := true, candidates := [c5cand] }

/-- Fixture current time 2025-06-10 01:00. -/
def c5now : PyDateTime := { day := daysFromCivil 2025 6 10, tod := 3600 }

/-- Fixture: a repository whose every metadata query raises. -/
def c6cand : RepoCand :=
  { path := "/work/c", org := "acme", name := "c",
    queries := { branchQ := .raises, logQ := .raises, remoteQ := .raises } }

/-- Fixture checkers that all pass. -/
def c6checkers : List Checker := [okCheck "tests", okCheck "style"]

/-- Fixture: a repository whose last-commit-date query raises while the
branch and remote queries succeed. -/
def c7cand : RepoCand :=
  { path := "/work/d", org := "", name := "d",
    queries := { branchQ := .completes 0 "dev",
                 logQ := .raises,
                 remoteQ := .completes 0 "git@example.com:d.git" } }

/-- Fixture filesystem containing only that repository. -/
def c7env : DiscoveryEnv := { rootExists := true, candidates := [c7cand] }

/-- Fixture cutoff lying in the far past, so any dated repository would
pass the recency filter. -/
def c7since : PyDateTime := { day := 0, tod := 0 }

/-- Fixture: a missing root directory. -/
def c8env : DiscoveryEnv := { rootExists := false, candidates := [w2cand] }

theorem lexLt_irrefl : ∀ l : List Char, lexLt l l = false
  | [] => rfl
  | c :: cs => by simp [lexLt, lt_irrefl, lexLt_irrefl cs]

theorem lexLt_asymm : ∀ {l₁ l₂ : List Char},
    lexLt l₁ l₂ = true → lexLt l₂ l₁ = false
  | _, [], h => by simp [lexLt] at h
  | [], _ :: _, _ => rfl
  | a :: as, b :: bs, h => by
    by_cases hab : a < b
    · have hba : ¬ b < a := lt_asymm hab
      have hbe : b ≠ a := (ne_of_lt hab).symm
      simp [lexLt, hba, hbe]
    · by_cases he : a = b
      · subst he
        simp only [lexLt, if_neg hab, if_pos rfl] at h
        simp [lexLt, hab, lexLt_asymm h]
      · simp [lexLt, hab, he] at h

theorem lexLt_trans : ∀ {l₁ l₂ l₃ : List Char},
    lexLt l₁ l₂ = true → lexLt l₂ l₃ = true → lexLt l₁ l₃ = true
  | _, [], _, h₁, _ => by simp [lexLt] at h₁
  | _, _ :: _, [], _, h₂ => by simp [lexLt] at h₂
  | [], _ :: _, _ :: _, _, _ => rfl
  | a :: as, b :: bs, c :: cs, h₁, h₂ => by
    by_cases hab : a < b
    · by_cases hbc : b < c
      · simp [lexLt, lt_trans hab hbc]
      · by_cases hbe : b = c
        · subst hbe; simp [lexLt, hab]
        · simp [lexLt, hbc, hbe] at h₂
    · by_cases hae : a = b
      · subst hae
        simp only [lexLt, if_neg hab, if_pos rfl] at h₁
        by_cases hbc : a < c
        · simp [lexLt, hbc]
        · by_cases hbe : a = c
          · subst hbe
            simp only [lexLt, if_neg hbc, if_pos rfl] at h₂
            simp [lexLt, hbc, lexLt_trans h₁ h₂]
          · simp [lexLt, hbc, hbe] at h₂
      · simp [lexLt, hab, hae] at h₁

theorem lexLt_connex : ∀ {l₁ l₂ : List Char},
    lexLt l₁ l₂ = false → lexLt l₂ l₁ = false → l₁ = l₂
  | [], [], _, _ => rfl
  | [], _ :: _, h₁, _ => by simp [lexLt] at h₁
  | _ :: _, [], _, h₂ => by simp [lexLt] at h₂
  | a :: as, b :: bs, h₁, h₂ => by
    by_cases hab : a < b
    · simp [lexLt, hab] at h₁
    · by_cases he : a = b
      · subst he
        simp only [lexLt, if_neg hab, if_pos rfl] at h₁ h₂
        exact congrArg (a :: ·) (lexLt_connex h₁ h₂)
      · by_cases hba : b < a
        · simp [lexLt, hba] at h₂
        · exact absurd (lt_or_gt_of_ne he) (by simp [hab, hba])

theorem string_eq_of_data {a b : String} (h : a.data = b.data) : a = b :=
  congrArg String.mk h

theorem strPairLt_irrefl (x : String × String) : strPairLt x x = false := by
  simp [strPairLt, lexLt_irrefl]

theorem strPairLt_asymm {x y : String × String}
    (h : strPairLt x y = true) : strPairLt y x = false := by
  rcases x with ⟨x₁, x₂⟩; rcases y with ⟨y₁, y₂⟩
  simp only [strPairLt, Bool.or_eq_true, Bool.and_eq_true, beq_iff_eq] at h
  rcases h with h | ⟨he, h⟩
  · have h1 : lexLt y₁.data x₁.data = false := lexLt_asymm h
    have h2 : y₁ ≠ x₁ := by
      intro he; subst he
      exact absurd h (by simp [lexLt_irrefl])
    simp [strPairLt, h1, h2]
  · subst he
    simp [strPairLt, lexLt_irrefl, lexLt_asymm h]

theorem strPairLt_trans {x y z : String × String}
    (h₁ : strPairLt x y = true) (h₂ : strPairLt y z = true) :
    strPairLt x z = true := by
  rcases x with ⟨x₁, x₂⟩; rcases y with ⟨y₁, y₂⟩; rcases z with ⟨z₁, z₂⟩
  simp only [strPairLt, Bool.or_eq_true, Bool.and_eq_true, beq_iff_eq] at h₁ h₂ ⊢
  rcases h₁ with h₁ | ⟨he₁, h₁⟩
  · rcases h₂ with h₂ | ⟨he₂, h₂⟩
    · exact Or.inl (lexLt_trans h₁ h₂)
    · subst he₂; exact Or.inl h₁
  · subst he₁
    rcases h₂ with h₂ | ⟨he₂, h₂⟩
    · exact Or.inl h₂
    · subst he₂; exact Or.inr ⟨rfl, lexLt_trans h₁ h₂⟩

theorem strPairLt_connex {x y : String × String}
    (h₁ : strPairLt x y = false) (h₂ : strPairLt y x = false) : x = y := by
  rcases x with ⟨x₁, x₂⟩; rcases y with ⟨y₁, y₂⟩
  simp only [strPairLt, Bool.or_eq_false_iff, Bool.and_eq_false_iff,
    beq_eq_false_iff_ne, ne_eq] at h₁ h₂
  have he : x₁ = y₁ :=
    string_eq_of_data (lexLt_connex h₁.1 h₂.1)
  subst he
  rcases h₁.2 with h | h
  · exact absurd rfl h
  · rcases h₂.2 with h' | h'
    · exact absurd rfl h'
    · have : x₂ = y₂ := string_eq_of_data (lexLt_connex h h')
      rw [this]

instance : IsTotal SummaryEntry entryLE := by
  constructor
  intro a b
  by_cases h : strPairLt (entryKey b) (entryKey a) = true
  · exact Or.inr (strPairLt_asymm h)
  · exact Or.inl (by simpa [entryLE] using h)

instance : IsTrans SummaryEntry entryLE := by
  constructor
  intro a b c hab hbc
  unfold entryLE at hab hbc ⊢
  by_contra hca
  have hca' : strPairLt (entryKey c) (entryKey a) = true := by
    simpa using hca
  by_cases hxy : strPairLt (entryKey a) (entryKey b) = true
  · have : strPairLt (entryKey c) (entryKey b) = true :=
      strPairLt_trans hca' hxy
    simp [this] at hbc
  · have : entryKey a = entryKey b :=
      strPairLt_connex (by simpa using hxy) hab
    rw [this] at hca'
    simp [hca'] at hbc

instance : IsAntisymm SummaryEntry entryLT := by
  constructor
  intro a b hab hba
  exact absurd (strPairLt_connex hab.1 hba.1) hba.2

/-- C1: a `ScanResult`'s overall status is `has errors` iff its top-level
error is set or some check's `is_ok` is false, and the per-repo report
(`RepoInfo.has_errors`, source line 288) and the summary (source line 341)
compute this status by the same predicate, so the two reports always
agree. -/
theorem hasErrors_single_predicate (r : ScanResult) :
    repoReportHasErrors r = summaryHasErrors r ∧
    (mkRepoInfo r.repo r).has_errors = summaryHasErrors r ∧
    (summaryHasErrors r = true ↔
      r.error ≠ none ∨ ∃ p ∈ r.results, p.2.is_ok = false) := by
  refine ⟨rfl, rfl, ?_⟩
  simp [summaryHasErrors, Option.isSome_iff_ne_none, List.any_eq_true]

/-- C9: in the per-repository report each check's severity is `high` when
`is_ok` is false and `low` when it is true; the severity depends on
nothing but `is_ok`. -/
theorem severity_function_of_is_ok (nm : String) (c : CheckResult) :
    (toGitCheckResult nm c).severity = (if c.is_ok then "low" else "high") ∧
    ((toGitCheckResult nm c).severity = "high" ↔ c.is_ok = false) ∧
    ((toGitCheckResult nm c).severity = "low" ↔ c.is_ok = true) ∧
    (∀ (nm' : String) (c' : CheckResult), c'.is_ok = c.is_ok →
      (toGitCheckResult nm' c').severity = (toGitCheckResult nm c).severity) := by
  refine ⟨?_, ?_, ?_, ?_⟩
  · cases h : c.is_ok <;> simp [toGitCheckResult, h]
  · cases h : c.is_ok <;> simp [toGitCheckResult, h]
  · cases h : c.is_ok <;> simp [toGitCheckResult, h]
  · intro nm' c' h
    simp [toGitCheckResult, h]

/-- Witness for C9 at a failing and a passing check. -/
theorem severity_function_of_is_ok_witness :
    (toGitCheckResult "style" { is_ok := false }).severity = "high" ∧
    (toGitCheckResult "tests" { is_ok := false }).severity
      = (toGitCheckResult "style" { is_ok := false }).severity :=
  ⟨(severity_function_of_is_ok "style" { is_ok := false }).2.1.mpr rfl,
   (severity_function_of_is_ok "style" { is_ok := false }).2.2.2 "tests"
     { is_ok := false } rfl⟩

/-- C4 counterexample: two distinct repositories whose sort keys coincide
(same organization, names `A` and `a` that agree after lowercasing).  The
stable sort of source line 358 keeps such ties in completion order, so two
completion orders of the same multiset of results yield different summary
orders — the claimed order-independence fails. -/
theorem summary_order_tie_not_deterministic :
    [c4rA, c4ra].Perm [c4ra, c4rA] ∧
    entryKey (mkSummaryEntry c4rA) = entryKey (mkSummaryEntry c4ra) ∧
    generateSummaryOrder [c4rA, c4ra] ≠ generateSummaryOrder [c4ra, c4rA] :=
  ⟨List.Perm.swap c4ra c4rA [], by decide, by decide⟩

/-- C4 amended: the summary order is the stable sort of the
completion-order result list by the key (lowercased organization,
lowercased name); whenever the keys of the scanned repositories are
pairwise distinct, the order is independent of worker count and completion
order. -/
theorem summary_order_deterministic_distinct_keys
    (res₁ res₂ : List ScanResult) (hperm : res₁.Perm res₂)
    (hkeys : List.Pairwise
      (fun a b => entryKey (mkSummaryEntry a) ≠ entryKey (mkSummaryEntry b))
      res₁) :
    generateSummaryOrder res₁ = generateSummaryOrder res₂ := by
  have symmNe : Symmetric (fun x y : SummaryEntry => entryKey x ≠ entryKey y) :=
    fun x y h => h.symm
  have hm : (res₁.map mkSummaryEntry).Perm (res₂.map mkSummaryEntry) :=
    hperm.map _
  have hp₁ := List.perm_insertionSort entryLE (res₁.map mkSummaryEntry)
  have hp₂ := List.perm_insertionSort entryLE (res₂.map mkSummaryEntry)
  have hs₁ := List.sorted_insertionSort entryLE (res₁.map mkSummaryEntry)
  have hs₂ := List.sorted_insertionSort entryLE (res₂.map mkSummaryEntry)
  have hne₁ : List.Pairwise (fun x y : SummaryEntry => entryKey x ≠ entryKey y)
      (res₁.map mkSummaryEntry) := List.pairwise_map.mpr hkeys
  have hne₂ : List.Pairwise (fun x y : SummaryEntry => entryKey x ≠ entryKey y)
      (res₂.map mkSummaryEntry) := (hm.pairwise_iff (fun h => symmNe h)).mp hne₁
  have hne₁' := ((hp₁.pairwise_iff (fun h => symmNe h)).mpr hne₁)
  have hne₂' := ((hp₂.pairwise_iff (fun h => symmNe h)).mpr hne₂)
  have hs₁' : List.Sorted entryLT
      (List.insertionSort entryLE (res₁.map mkSummaryEntry)) :=
    (hs₁.and hne₁').imp fun h => ⟨h.1, h.2⟩
  have hs₂' : List.Sorted entryLT
      (List.insertionSort entryLE (res₂.map mkSummaryEntry)) :=
    (hs₂.and hne₂').imp fun h => ⟨h.1, h.2⟩
  exact List.eq_of_perm_of_sorted (hp₁.trans (hm.trans hp₂.symm)) hs₁' hs₂'

/-- Witness for the amended C4: repositories named `A` and `b` have
distinct keys, so both completion orders sort identically. -/
theorem summary_order_deterministic_distinct_keys_witness :
    generateSummaryOrder [c4rA, c4rb] = generateSummaryOrder [c4rb, c4rA] :=
  summary_order_deterministic_distinct_keys [c4rA, c4rb] [c4rb, c4rA]
    (List.Perm.swap c4rb c4rA []) (by decide)

theorem has_recent_changes_iff (r : GitRepo) (s : PyDateTime) :
    r.has_recent_changes s = true ↔
      ∃ d, r.last_commit_date = some d ∧ PyDateTime.le s d = true := by
  unfold GitRepo.has_recent_changes
  cases h : r.last_commit_date <;> simp [h]

theorem ofCandidate_path (c : RepoCand) : (GitRepo.ofCandidate c).path = c.path :=
  rfl

theorem succOut_false_of_fails {o : GitOutcome} (h : failsQ o) :
    succOut (runGit o) = false := by
  rcases h with rfl | ⟨rc, out, rfl, hrc⟩
  · rfl
  · simp [runGit, succOut, hrc]

theorem extractMetadata_branch_default (q : GitQueries)
    (h : succOut (runGit q.branchQ) = false) :
    (extractMetadata q).branch = "main" := by
  simp only [extractMetadata]
  split
  · split <;> simp [h]
  · simp [h]

theorem extractMetadata_date_default (q : GitQueries)
    (h : succOut (runGit q.logQ) = false) :
    (extractMetadata q).last_commit_date = none := by
  simp only [extractMetadata]
  simp [h]

theorem extractMetadata_remote_default (q : GitQueries)
    (h : succOut (runGit q.remoteQ) = false) :
    (extractMetadata q).remote_url = "" := by
  simp only [extractMetadata]
  split
  · split <;> simp [h]
  · simp [h]

theorem runCheckers_all_ok_any (checkers : List Checker) (path : String)
    (hok : ∀ ch ∈ checkers, ∃ res, ch.run path = .ok res ∧ res.is_ok = true) :
    (runCheckers checkers path).any (fun kv => !kv.2.is_ok) = false := by
  induction checkers with
  | nil => rfl
  | cons ch cs ih =>
    obtain ⟨res, hrun, hisok⟩ := hok ch (List.mem_cons_self ch cs)
    have ih' := ih (fun ch' h' => hok ch' (List.mem_cons_of_mem _ h'))
    show (match ch.run path with
      | .ok r => (ch.name, r) :: runCheckers cs path
      | .error _ => runCheckers cs path).any (fun kv => !kv.2.is_ok) = false
    rw [hrun]
    simp [hisok, ih']

/-- C5 counterexample: the repository last committed to in January 2020 is
present on disk, resolves a last-commit date, and yet is excluded from
discovery although no cutoff was supplied — `__init__` substitutes the
default cutoff `now - 7 days`, so the claimed "included when no cutoff is
given" fails. -/
theorem no_cutoff_still_filters :
    c5env.candidates = [c5cand] ∧
    (GitRepo.ofCandidate c5cand).last_commit_date
      = some { day := daysFromCivil 2020 1 15, tod := 0 } ∧
    findGitRepos c5env (initSince none c5now) = [] :=
  ⟨rfl, by decide, by decide⟩

/-- C5 amended: when a cutoff is supplied, a repository is discovered iff
the root exists, it was found by the walk, and it resolves a last-commit
date at or after the cutoff (so older or undated repositories are
excluded); when no cutoff is supplied the scanner substitutes the default
cutoff of seven days before the current time and applies the same filter,
so repositories are not all included. -/
theorem discovery_filter_always_applies (env : DiscoveryEnv)
    (since : Option PyDateTime) (now : PyDateTime) (r : GitRepo) :
    initSince none now = { day := now.day - 7, tod := now.tod } ∧
    (r ∈ findGitRepos env (initSince since now) ↔
      env.rootExists = true ∧
      r ∈ env.candidates.map GitRepo.ofCandidate ∧
      ∃ d, r.last_commit_date = some d ∧
        PyDateTime.le (initSince since now) d = true) := by
  refine ⟨rfl, ?_⟩
  unfold findGitRepos
  cases h : env.rootExists
  · simp [h]
  · simp [h, List.mem_filter, has_recent_changes_iff]

/-- C6 counterexample: repository `c`'s metadata queries all raise; the
exception is swallowed by `_extract_metadata`'s bare `except`, the scan
records no top-level error, all checks pass, and the summary computes
`has_errors = False` — the repository is listed as healthy, not as having
errors. -/
theorem metadata_throw_listed_healthy :
    (GitRepo.ofCandidate c6cand).branch = "main" ∧
    (GitRepo.ofCandidate c6cand).last_commit_date = none ∧
    (scanRepo c6checkers okReport (GitRepo.ofCandidate c6cand)).error = none ∧
    summaryHasErrors (scanRepo c6checkers okReport (GitRepo.ofCandidate c6cand))
      = false :=
  ⟨rfl, rfl, rfl, rfl⟩

/-- C6 amended: a repository whose metadata extraction throws keeps
default metadata and records no top-level error, so the summary lists it
as having errors only if some check failed: with all checks passing it is
listed as healthy. -/
theorem metadata_throw_summary_status (c : RepoCand)
    (hq : c.queries =
      { branchQ := .raises, logQ := .raises, remoteQ := .raises })
    (checkers : List Checker) (rg : ReportGen)
    (hok : ∀ ch ∈ checkers, ∃ res, ch.run c.path = .ok res ∧ res.is_ok = true)
    (hrep : rg (GitRepo.ofCandidate c) (runCheckers checkers c.path) = .ok ()) :
    (GitRepo.ofCandidate c).branch = "main" ∧
    (GitRepo.ofCandidate c).last_commit_date = none ∧
    (GitRepo.ofCandidate c).remote_url = "" ∧
    summaryHasErrors (scanRepo checkers rg (GitRepo.ofCandidate c)) = false := by
  have hmeta : extractMetadata c.queries = {} := by rw [hq]; rfl
  refine ⟨?_, ?_, ?_, ?_⟩
  · show (extractMetadata c.queries).branch = "main"
    rw [hmeta]
  · show (extractMetadata c.queries).last_commit_date = none
    rw [hmeta]
  · show (extractMetadata c.queries).remote_url = ""
    rw [hmeta]
  · simp only [scanRepo, ofCandidate_path]
    rw [hrep]
    simp [summaryHasErrors, runCheckers_all_ok_any checkers c.path hok]

/-- Witness for the amended C6 at the all-raising fixture repository. -/
theorem metadata_throw_summary_status_witness :
    summaryHasErrors (scanRepo c6checkers okReport (GitRepo.ofCandidate c6cand))
        = false ∧
    (GitRepo.ofCandidate c6cand).remote_url = "" := by
  have h := metadata_throw_summary_status c6cand rfl c6checkers okReport
    (by
      intro ch hch
      simp only [c6checkers, List.mem_cons, List.not_mem_nil, or_false] at hch
      rcases hch with rfl | rfl
      · exact ⟨{ name := "tests", is_ok := true }, rfl, rfl⟩
      · exact ⟨{ name := "style", is_ok := true }, rfl, rfl⟩)
    rfl
  exact ⟨h.2.2.2, h.2.2.1⟩

/-- C7 counterexample: repository `d`'s last-commit-date query raises.
The field defaults to `None`, so the repository fails the always-applied
recency filter (even against a cutoff in the far past), is dropped from
discovery, and is never scanned — so the claim that the scan of that
repository proceeds fails. -/
theorem date_query_failure_unscanned :
    c7env.candidates = [c7cand] ∧
    (GitRepo.ofCandidate c7cand).branch = "dev" ∧
    (GitRepo.ofCandidate c7cand).last_commit_date = none ∧
    findGitRepos c7env c7since = [] ∧
    scanAll 4 [okCheck "tests"] okReport c7env c7since [] = [] :=
  ⟨rfl, by decide, by decide, by decide, by decide⟩

/-- C7 amended: a failed metadata query (exception or non-zero exit)
leaves its field at the default — branch `main`, no last-commit date,
empty remote URL — and no exception propagates, so every submitted
repository still yields a result; but a repository whose last-commit-date
query failed has no date, therefore fails the recency filter and is
excluded from discovery rather than scanned, while branch or remote-URL
failures leave the repository scanned with defaults. -/
theorem metadata_field_failure_defaults (q : GitQueries) :
    (failsQ q.branchQ → (extractMetadata q).branch = "main") ∧
    (failsQ q.logQ → (extractMetadata q).last_commit_date = none) ∧
    (failsQ q.remoteQ → (extractMetadata q).remote_url = "") ∧
    (∀ (c : RepoCand) (s : PyDateTime), c.queries = q → failsQ q.logQ →
      (GitRepo.ofCandidate c).has_recent_changes s = false) ∧
    (∀ (checkers : List Checker) (rg : ReportGen) (order : List GitRepo),
      (scanAllFromOrder checkers rg order).length = order.length) := by
  refine ⟨?_, ?_, ?_, ?_, ?_⟩
  · exact fun h => extractMetadata_branch_default q (succOut_false_of_fails h)
  · exact fun h => extractMetadata_date_default q (succOut_false_of_fails h)
  · exact fun h => extractMetadata_remote_default q (succOut_false_of_fails h)
  · intro c s hcq h
    have hd : (GitRepo.ofCandidate c).last_commit_date = none := by
      show (extractMetadata c.queries).last_commit_date = none
      rw [hcq]
      exact extractMetadata_date_default q (succOut_false_of_fails h)
    unfold GitRepo.has_recent_changes
    rw [hd]
  · intro checkers rg order
    simp [scanAllFromOrder]

/-- Witness for the amended C7 at the fixture whose date query raises. -/
theorem metadata_field_failure_defaults_witness :
    (extractMetadata c7cand.queries).last_commit_date = none ∧
    (GitRepo.ofCandidate c7cand).has_recent_changes c7since = false :=
  ⟨(metadata_field_failure_defaults c7cand.queries).2.1 (Or.inl rfl),
   (metadata_field_failure_defaults c7cand.queries).2.2.2.1 c7cand c7since rfl
     (Or.inl rfl)⟩

theorem scanRepo_repo (checkers : List Checker) (rg : ReportGen) (r : GitRepo) :
    (scanRepo checkers rg r).repo = r := by
  simp only [scanRepo]
  split <;> rfl

theorem scanAllFromOrder_map_repo (checkers : List Checker) (rg : ReportGen)
    (order : List GitRepo) :
    (scanAllFromOrder checkers rg order).map ScanResult.repo = order := by
  induction order with
  | nil => rfl
  | cons r rs ih =>
    show (scanRepo checkers rg r).repo ::
        (scanAllFromOrder checkers rg rs).map ScanResult.repo = r :: rs
    rw [scanRepo_repo, ih]

/-- C2: for K discovered repositories and any worker count N with
1 ≤ N ≤ K, `scan_all` produces exactly K `ScanResult`s, one per discovered
repository, whatever completion order the pool realises; exceptions during
metadata extraction, checks or report generation are all absorbed inside
`scan_repo` (they are part of the environment here), so no repository's
result is removed by another's failure. -/
theorem scan_all_count_independent (jobs : Nat) (checkers : List Checker)
    (rg : ReportGen) (env : DiscoveryEnv) (since : PyDateTime)
    (order : List GitRepo)
    (hj1 : 1 ≤ jobs) (hj2 : jobs ≤ (findGitRepos env since).length)
    (horder : order.Perm (findGitRepos env since)) :
    (scanAll jobs checkers rg env since order).length
      = (findGitRepos env since).length ∧
    ((scanAll jobs checkers rg env since order).map ScanResult.repo).Perm
      (findGitRepos env since) ∧
    ∀ r ∈ findGitRepos env since,
      ∃ res ∈ scanAll jobs checkers rg env since order, res.repo = r := by
  have hne : (findGitRepos env since).isEmpty = false := by
    rcases h : findGitRepos env since with _ | ⟨a, as⟩
    · rw [h] at hj2
      simp at hj2
      omega
    · rfl
  have hs : scanAll jobs checkers rg env since order
      = scanAllFromOrder checkers rg order := by
    simp [scanAll, hne]
  have hmap := scanAllFromOrder_map_repo checkers rg order
  refine ⟨?_, ?_, ?_⟩
  · rw [hs]
    have hlen : (scanAllFromOrder checkers rg order).length = order.length := by
      simp [scanAllFromOrder]
    rw [hlen, horder.length_eq]
  · rw [hs, hmap]
    exact horder
  · intro r hr
    have hmem : r ∈ order := horder.mem_iff.mpr hr
    rw [hs]
    exact ⟨scanRepo checkers rg r, List.mem_map_of_mem _ hmem,
      scanRepo_repo _ _ _⟩

/-- Witness for C2 on a one-repository filesystem with one worker. -/
theorem scan_all_count_independent_witness :
    (scanAll 1 [okCheck "tests"] okReport w2env w2since
        (findGitRepos w2env w2since)).length
      = (findGitRepos w2env w2since).length :=
  (scan_all_count_independent 1 [okCheck "tests"] okReport w2env w2since
    (findGitRepos w2env w2since) (by decide) (by decide)
    (List.Perm.refl _)).1

/-- C8: a missing (or unreadable) root directory means discovery yields
nothing and `scan_all` returns before scanning — no `ScanResult` is
produced and, since checks run only inside `scan_repo`, no check runs; and
nothing else aborts the run: whatever the checker, metadata or
report-generation behaviour, every discovered repository still yields its
result. -/
theorem discovery_error_only_abort (jobs : Nat) (checkers : List Checker)
    (rg : ReportGen) (env : DiscoveryEnv) (since : PyDateTime)
    (order : List GitRepo) :
    (env.rootExists = false →
      findGitRepos env since = [] ∧
      scanAll jobs checkers rg env since order = []) ∧
    (order.Perm (findGitRepos env since) →
      (scanAll jobs checkers rg env since order).length
        = (findGitRepos env since).length) := by
  constructor
  · intro h
    have hf : findGitRepos env since = [] := by simp [findGitRepos, h]
    exact ⟨hf, by simp [scanAll, hf]⟩
  · intro horder
    rcases hh : findGitRepos env since with _ | ⟨a, as⟩
    · simp [scanAll, hh]
    · have hne : (findGitRepos env since).isEmpty = false := by rw [hh]; rfl
      have hs : scanAll jobs checkers rg env since order
          = scanAllFromOrder checkers rg order := by
        simp [scanAll, hne]
      rw [hs, ← hh]
      have hlen : (scanAllFromOrder checkers rg order).length = order.length := by
        simp [scanAllFromOrder]
      rw [hlen, horder.length_eq]

/-- Witness for C8 at a missing root. -/
theorem discovery_error_only_abort_witness :
    findGitRepos c8env w2since = [] ∧
    scanAll 4 [okCheck "tests"] okReport c8env w2since [] = [] :=
  (discovery_error_only_abort 4 [okCheck "tests"] okReport c8env w2since []).1
    rfl

theorem runCheckers_keys (checkers : List Checker) (failName : String)
    (path : String)
    (hfail : ∀ c ∈ checkers, c.name = failName → ∃ e, c.run path = .error e)
    (hok : ∀ c ∈ checkers, c.name ≠ failName → ∃ res, c.run path = .ok res) :
    (runCheckers checkers path).map Prod.fst
      = (checkers.filter (fun c => c.name != failName)).map Checker.name := by
  induction checkers with
  | nil => rfl
  | cons c cs ih =>
    have ih' := ih (fun c' h' hn => hfail c' (List.mem_cons_of_mem _ h') hn)
      (fun c' h' hn => hok c' (List.mem_cons_of_mem _ h') hn)
    by_cases hc : c.name = failName
    · obtain ⟨e, he⟩ := hfail c (List.mem_cons_self c cs) hc
      show (match c.run path with
        | .ok r => (c.name, r) :: runCheckers cs path
        | .error _ => runCheckers cs path).map Prod.fst = _
      rw [he]
      have hfilter : (c.name != failName) = false := by simp [hc]
      simp only [List.filter_cons, hfilter, if_false, Bool.false_eq_true]
      exact ih'
    · obtain ⟨res, hr⟩ := hok c (List.mem_cons_self c cs) hc
      show (match c.run path with
        | .ok r => (c.name, r) :: runCheckers cs path
        | .error _ => runCheckers cs path).map Prod.fst = _
      rw [hr]
      have hfilter : (c.name != failName) = true := by simp [hc]
      simp only [List.filter_cons, hfilter, if_true, List.map_cons]
      exact congrArg (c.name :: ·) ih'

theorem runCheckers_congr (path : String)
    {checkers checkers' : List Checker}
    (h : List.Forall₂ (fun c c' => c.name = c'.name ∧ c.run path = c'.run path)
      checkers checkers') :
    runCheckers checkers path = runCheckers checkers' path := by
  induction h with
  | nil => rfl
  | cons h₁ h₂ ih =>
    simp only [runCheckers, h₁.1, h₁.2, ih]

/-- C3: if check `failName` raises for repository R while all other checks
succeed (and the per-repo report renders), R's result map holds an entry
for every check except the failing one — which is omitted, not recorded as
failed — R's top-level error stays `None`, and any repository at another
path is scanned identically whether or not the check fails there. -/
theorem check_failure_isolated (checkers : List Checker) (failName : String)
    (rg : ReportGen) (R : GitRepo)
    (hfail : ∀ c ∈ checkers, c.name = failName → ∃ e, c.run R.path = .error e)
    (hok : ∀ c ∈ checkers, c.name ≠ failName → ∃ res, c.run R.path = .ok res)
    (hrep : rg R (runCheckers checkers R.path) = .ok ()) :
    ((scanRepo checkers rg R).results.map Prod.fst
      = (checkers.filter (fun c => c.name != failName)).map Checker.name) ∧
    (scanRepo checkers rg R).error = none ∧
    (∀ (checkers' : List Checker) (R' : GitRepo), R'.path ≠ R.path →
      List.Forall₂
        (fun c c' => c.name = c'.name ∧ ∀ p, p ≠ R.path → c.run p = c'.run p)
        checkers checkers' →
      scanRepo checkers' rg R' = scanRepo checkers rg R') := by
  have hresults : (scanRepo checkers rg R).results
      = runCheckers checkers R.path := by
    simp only [scanRepo]
    split <;> rfl
  have herror : (scanRepo checkers rg R).error = none := by
    simp only [scanRepo]
    rw [hrep]
  refine ⟨?_, herror, ?_⟩
  · rw [hresults]
    exact runCheckers_keys checkers failName R.path hfail hok
  · intro checkers' R' hpath hforall
    have h2 : List.Forall₂
        (fun c c' => c.name = c'.name ∧ c.run R'.path = c'.run R'.path)
        checkers checkers' :=
      hforall.imp (fun _ _ h => ⟨h.1, h.2 R'.path hpath⟩)
    have hrc : runCheckers checkers' R'.path = runCheckers checkers R'.path :=
      (runCheckers_congr R'.path h2).symm
    simp only [scanRepo, hrc]

/-- Witness for C3: `style` raises, `tests` and `docs` succeed; the result
map keys are exactly `tests, docs` and no error is recorded. -/
theorem check_failure_isolated_witness :
    ((scanRepo c3checkers okReport c3repo).results.map Prod.fst
      = (c3checkers.filter (fun c => c.name != "style")).map Checker.name) ∧
    (scanRepo c3checkers okReport c3repo).error = none := by
  have hf : ∀ c ∈ c3checkers, c.name = "style" →
      ∃ e, c.run c3repo.path = .error e := by
    intro c hc hn
    simp only [c3checkers, List.mem_cons, List.not_mem_nil, or_false] at hc
    rcases hc with rfl | rfl | rfl
    · exact ⟨"boom", rfl⟩
    · exact absurd hn (by decide)
    · exact absurd hn (by decide)
  have ho : ∀ c ∈ c3checkers, c.name ≠ "style" →
      ∃ res, c.run c3repo.path = .ok res := by
    intro c hc hn
    simp only [c3checkers, List.mem_cons, List.not_mem_nil, or_false] at hc
    rcases hc with rfl | rfl | rfl
    · exact absurd rfl hn
    · exact ⟨{ name := "tests", is_ok := true }, rfl⟩
    · exact ⟨{ name := "docs", is_ok := true }, rfl⟩
  have h := check_failure_isolated c3checkers "style" okReport c3repo hf ho rfl
  exact ⟨h.1, h.2.1⟩

theorem parseLogDate_eq (s : String) :
    parseLogDate s = ((pySplitWS s).head?.bind parseYMD).map
      (fun d => { day := d, tod := 0 }) := by
  unfold parseLogDate
  cases h : (pySplitWS s).head? <;> simp [h]

theorem extractMetadata_date_parse (q : GitQueries)
    (h : succOut (runGit q.logQ) = true) :
    (extractMetadata q).last_commit_date
      = parseLogDate (stdoutStripped (runGit q.logQ)) := by
  simp only [extractMetadata]
  rw [if_pos h]
  cases hp : parseLogDate (stdoutStripped (runGit q.logQ)) <;> simp [hp]

/-- C10: the stored last-commit date keeps only the calendar date — it is
parsed with format `%Y-%m-%d` from the first whitespace-separated token of
the (stripped) log output, so its time of day is zero — and
`has_recent_changes(since)` is true iff a last-commit date exists and that
(midnight) instant is greater than or equal to `since`, the comparison
being inclusive. -/
theorem last_commit_date_midnight (c : RepoCand) (since : PyDateTime) :
    (∀ dt, (GitRepo.ofCandidate c).last_commit_date = some dt →
      dt.tod = 0 ∧
      ∃ out, c.queries.logQ = .completes 0 out ∧
        ((pySplitWS (pyStrip out)).head?.bind parseYMD) = some dt.day) ∧
    ((GitRepo.ofCandidate c).has_recent_changes since = true ↔
      ∃ dt, (GitRepo.ofCandidate c).last_commit_date = some dt ∧
        PyDateTime.le since dt = true) := by
  constructor
  · intro dt hdt
    have hdt' : (extractMetadata c.queries).last_commit_date = some dt := hdt
    rcases hq : c.queries.logQ with _ | ⟨rc, out⟩
    · have hnone : (extractMetadata c.queries).last_commit_date = none :=
        extractMetadata_date_default _ (by rw [hq]; rfl)
      rw [hnone] at hdt'
      exact absurd hdt' (by simp)
    · by_cases hrc : rc = 0
      · subst hrc
        by_cases hso : succOut (runGit (GitOutcome.completes 0 out)) = true
        · have hdate := extractMetadata_date_parse c.queries (by rw [hq]; exact hso)
          rw [hdate, hq] at hdt'
          rw [show stdoutStripped (runGit (GitOutcome.completes 0 out))
                = pyStrip out from rfl,
            parseLogDate_eq] at hdt'
          rcases hb : (pySplitWS (pyStrip out)).head?.bind parseYMD with _ | d
          · rw [hb] at hdt'
            simp at hdt'
          · rw [hb] at hdt'
            have hdd : ({ day := d, tod := 0 } : PyDateTime) = dt := by
              simpa using hdt'
            exact ⟨by rw [← hdd], out, rfl, by rw [hb, ← hdd]⟩
        · have hnone : (extractMetadata c.queries).last_commit_date = none :=
            extractMetadata_date_default _
              (by rw [hq]; simpa using hso)
          rw [hnone] at hdt'
          exact absurd hdt' (by simp)
      · have hnone : (extractMetadata c.queries).last_commit_date = none :=
          extractMetadata_date_default _
            (succOut_false_of_fails (Or.inr ⟨rc, out, hq, hrc⟩))
        rw [hnone] at hdt'
        exact absurd hdt' (by simp)
  · exact has_recent_changes_iff _ _

/-- Witness for C10 at the healthy fixture: the date `2025-06-08` is
stored at midnight, parsed from the first token of the log output, and the
inclusive comparison against the cutoff `2025-06-01` holds. -/
theorem last_commit_date_midnight_witness :
    (GitRepo.ofCandidate w2cand).has_recent_changes w2since = true ∧
    ∃ out, w2cand.queries.logQ = .completes 0 out ∧
      ((pySplitWS (pyStrip out)).head?.bind parseYMD)
        = some ({ day := daysFromCivil 2025 6 8, tod := 0 } : PyDateTime).day := by
  have h := last_commit_date_midnight w2cand w2since
  exact ⟨h.2.mpr ⟨{ day := daysFromCivil 2025 6 8, tod := 0 }, by decide, by decide⟩,
    (h.1 { day := daysFromCivil 2025 6 8, tod := 0 } (by decide)).2⟩

end Weekly
